import Mathlib

set_option maxRecDepth 100000

/-
  Shallow embedding of the analytics service in `src/main.py`: the dataset
  loading/cleaning pass and the pandas aggregation endpoints.

  Modelling conventions:
  * machine floats are modelled as exact rationals (`ℚ`);
  * IEEE special values (`inf`, `-inf`, `NaN`), which arise from the
    zero-denominator divisions pandas performs without raising, are captured
    by the `FVal` type at exactly the places the source can produce them;
  * `round(x, 2)` / `DataFrame.round(2)` is modelled as round-half-to-even
    at two decimal places (`round2q`);
  * `pandas.groupby(key)` sorts the distinct non-null keys ascending
    (`sort=True`, `dropna=True` defaults) — modelled by `groupKeys`;
  * `pd.to_datetime(..., errors="coerce")` results are modelled as
    `Option Date` fields of the raw rows (`none` = `NaT`).
-/

namespace Store

/-- An IEEE-style float value: an exact finite rational, an infinity, or NaN. -/
inductive FVal where
  | fin (q : ℚ)
  | posInf
  | negInf
  | nan
deriving DecidableEq

/-- Float division `a / b` of finite values, as numpy performs it inside a
pandas column: division by zero yields `±inf` or `NaN` instead of raising. -/
def fdiv (a b : ℚ) : FVal :=
  if b = 0 then (if 0 < a then .posInf else if a < 0 then .negInf else .nan)
  else .fin (a / b)

/-- Multiplication of a float value by the scalar 100 (`* 100` on ratios);
infinities and NaN absorb. -/
def FVal.mul100 : FVal → FVal
  | .fin q => .fin (q * 100)
  | x => x

/-- NaN test, as used by `DataFrame.dropna`. -/
def FVal.isNan : FVal → Bool
  | .nan => true
  | _ => false

/-- Round a rational to the nearest integer, ties to even: the rounding mode
of Python's `round` and of numpy/pandas rounding. -/
def roundHalfEven (q : ℚ) : ℤ :=
  if q - ⌊q⌋ < 1/2 then ⌊q⌋
  else if 1/2 < q - ⌊q⌋ then ⌊q⌋ + 1
  else if ⌊q⌋ % 2 = 0 then ⌊q⌋ else ⌊q⌋ + 1

/-- `round(x, 2)`: round to two decimal places. -/
def round2q (q : ℚ) : ℚ := (roundHalfEven (q * 100) : ℚ) / 100

/-- `round(x, 2)` on a float value: finite values are rounded, `±inf` and
`NaN` pass through unchanged. -/
def FVal.round2 : FVal → FVal
  | .fin q => .fin (round2q q)
  | x => x

/-- A calendar date, as carried by a parsed pandas datetime. -/
structure Date where
  year : ℤ
  month : ℕ
  day : ℕ
deriving DecidableEq

/-- Days since 1970-01-01 of a civil date (proleptic Gregorian), the day
ordinal underlying pandas timestamp subtraction. -/
def daysFromCivil (dt : Date) : ℤ :=
  let y : ℤ := if dt.month ≤ 2 then dt.year - 1 else dt.year
  let era : ℤ := Int.fdiv y 400
  let yoe : ℤ := y - era * 400
  let mp : ℤ := Int.emod ((dt.month : ℤ) + 9) 12
  let doy : ℤ := Int.fdiv (153 * mp + 2) 5 + (dt.day : ℤ) - 1
  let doe : ℤ := yoe * 365 + Int.fdiv yoe 4 - Int.fdiv yoe 100 + doy
  era * 146097 + doe - 719468

/-- `(a - b).days` on two pandas timestamps. -/
def dateDiff (a b : Date) : ℤ := daysFromCivil a - daysFromCivil b

/-- One row of the raw CSV after the numeric cleaning of `Sales`/`Profit`
and the tolerant (`errors="coerce"`) parsing of the date columns: a date
that failed to parse is `none` (pandas `NaT`); a categorical field that was
missing in the source is `none` (pandas `NaN`). -/
structure RawRow where
  orderDate : Option Date := none
  shipDate : Option Date := none
  sales : ℚ := 0
  profit : ℚ := 0
  category : Option String := none
  subCategory : Option String := none
  region : Option String := none
  state : Option String := none
  segment : Option String := none
  shipMode : Option String := none
  productName : Option String := none
  customerName : Option String := none
deriving DecidableEq

/-- One row of the canonical in-memory table: `orderDate` is always a valid
date, `shipDate` may be absent, and `deliveryDays` is the derived
`(Ship Date - Order Date).dt.days` column (`none` where `Ship Date` is
`NaT`). -/
structure Row where
  orderDate : Date := ⟨2021, 1, 1⟩
  shipDate : Option Date := none
  sales : ℚ := 0
  profit : ℚ := 0
  category : Option String := none
  subCategory : Option String := none
  region : Option String := none
  state : Option String := none
  segment : Option String := none
  shipMode : Option String := none
  productName : Option String := none
  customerName : Option String := none
  deliveryDays : Option ℤ := none
deriving DecidableEq

/-- The load/clean pass of `src/main.py` lines 62-63 and 310-311: rows whose
`Order Date` failed to parse are dropped (`dropna(subset=["Order Date"])`);
rows whose `Ship Date` failed to parse are kept with an absent ship date, and
`delivery_days` is present exactly where both dates are. -/
def load (raws : List RawRow) : List Row :=
  (raws.filter (fun rr => rr.orderDate.isSome)).map (fun rr =>
    let od := rr.orderDate.getD ⟨1970, 1, 1⟩
    { orderDate := od, shipDate := rr.shipDate, sales := rr.sales,
      profit := rr.profit, category := rr.category,
      subCategory := rr.subCategory, region := rr.region, state := rr.state,
      segment := rr.segment, shipMode := rr.shipMode,
      productName := rr.productName, customerName := rr.customerName,
      deliveryDays := rr.shipDate.map (fun sd => dateDiff sd od) })

/-- `df["Sales"].sum()` over a (sub)table. -/
def sumSales (l : List Row) : ℚ := (l.map Row.sales).sum

/-- `df["Profit"].sum()` over a (sub)table. -/
def sumProfit (l : List Row) : ℚ := (l.map Row.profit).sum

/-- The `/kpis` response record. -/
structure Kpis where
  totalSales : ℚ
  totalProfit : ℚ
  orders : ℕ
  margin : ℚ
  averageTicket : ℚ
deriving DecidableEq

/-- `get_kpis` (`src/main.py` lines 75-90). -/
def get_kpis (t : List Row) : Kpis :=
  let total_sales := sumSales t
  let total_profit := sumProfit t
  let orders := t.length
  let margin : ℚ := if 0 < total_sales then total_profit / total_sales * 100 else 0
  let average_ticket : ℚ := if 0 < orders then total_sales / (orders : ℚ) else 0
  { totalSales := round2q total_sales,
    totalProfit := round2q total_profit,
    orders := orders,
    margin := round2q (min margin 100),
    averageTicket := round2q average_ticket }

/-- Lexicographic comparison of character lists by code point, the order in
which pandas sorts Python string keys. -/
def charsLe : List Char → List Char → Bool
  | [], _ => true
  | _ :: _, [] => false
  | a :: as, b :: bs =>
    if a.toNat < b.toNat then true
    else if b.toNat < a.toNat then false
    else charsLe as bs

/-- String order used by `groupby(sort=True)` and `sort_values` on string
columns. -/
def strLe (a b : String) : Prop := charsLe a.data b.data = true

instance (a b : String) : Decidable (strLe a b) :=
  inferInstanceAs (Decidable (charsLe a.data b.data = true))

theorem charsLe_total (a : List Char) : ∀ b, charsLe a b = true ∨ charsLe b a = true := by
  induction a with
  | nil => intro b; left; rfl
  | cons x xs ih =>
    intro b
    cases b with
    | nil => right; rfl
    | cons y ys =>
      simp only [charsLe]
      rcases Nat.lt_trichotomy x.toNat y.toNat with h | h | h
      · left; simp [h]
      · have h1 : ¬ x.toNat < y.toNat := by omega
        have h2 : ¬ y.toNat < x.toNat := by omega
        simpa [h1, h2] using ih ys
      · right; simp [h]

theorem charsLe_trans (a : List Char) :
    ∀ b c, charsLe a b = true → charsLe b c = true → charsLe a c = true := by
  induction a with
  | nil => intro b c _ _; rfl
  | cons x xs ih =>
    intro b c hab hbc
    cases b with
    | nil => simp [charsLe] at hab
    | cons y ys =>
      cases c with
      | nil => simp [charsLe] at hbc
      | cons z zs =>
        simp only [charsLe] at hab hbc ⊢
        rcases Nat.lt_trichotomy x.toNat y.toNat with h1 | h1 | h1 <;>
          rcases Nat.lt_trichotomy y.toNat z.toNat with h2 | h2 | h2
        · simp [show x.toNat < z.toNat by omega]
        · simp [show x.toNat < z.toNat by omega]
        · simp [h2, show ¬ y.toNat < z.toNat by omega] at hbc
        · simp [show x.toNat < z.toNat by omega]
        · have e1 : ¬ x.toNat < z.toNat := by omega
          have e2 : ¬ z.toNat < x.toNat := by omega
          simp only [if_neg e1, if_neg e2]
          simp only [if_neg (show ¬ x.toNat < y.toNat by omega),
            if_neg (show ¬ y.toNat < x.toNat by omega)] at hab
          simp only [if_neg (show ¬ y.toNat < z.toNat by omega),
            if_neg (show ¬ z.toNat < y.toNat by omega)] at hbc
          exact ih ys zs hab hbc
        · simp [h2, show ¬ y.toNat < z.toNat by omega] at hbc
        · simp [h1, show ¬ x.toNat < y.toNat by omega] at hab
        · simp [h1, show ¬ x.toNat < y.toNat by omega] at hab
        · simp [h1, show ¬ x.toNat < y.toNat by omega] at hab

instance : IsTotal String strLe := ⟨fun a b => charsLe_total a.data b.data⟩

instance : IsTrans String strLe := ⟨fun a b c => charsLe_trans a.data b.data c.data⟩

/-- The distinct non-null values of a key column (`dropna=True`: rows whose
grouping key is missing are skipped and never appear as a group). -/
def keysOf {κ : Type} [DecidableEq κ] (f : Row → Option κ) (t : List Row) : List κ :=
  (t.filterMap f).dedup

/-- The `df.groupby(key)` group keys: distinct non-null keys sorted ascending,
the pandas `sort=True` default. -/
def groupKeys {κ : Type} [DecidableEq κ] (r : κ → κ → Prop) [DecidableRel r]
    (f : Row → Option κ) (t : List Row) : List κ :=
  List.insertionSort r (keysOf f t)

/-- The rows of the group whose key is `k`. -/
def groupOf {κ : Type} [DecidableEq κ] (f : Row → Option κ) (t : List Row) (k : κ) :
    List Row :=
  t.filter (fun x => f x = some k)

/-- A `/sales-by-category` (or `/sales-by-region`) response record. -/
structure CatRec where
  category : String
  sales : ℚ
  profit : ℚ
deriving DecidableEq

/-- `sales_by_category` (`src/main.py` lines 133-141). -/
def sales_by_category (t : List Row) : List CatRec :=
  (groupKeys strLe Row.category t).map (fun k =>
    let g := groupOf Row.category t k
    { category := k, sales := round2q (sumSales g), profit := round2q (sumProfit g) })

/-- `sales_by_region` (`src/main.py` lines 162-170); the record shape is that
of `CatRec` with the key drawn from the `Region` column. -/
def sales_by_region (t : List Row) : List CatRec :=
  (groupKeys strLe Row.region t).map (fun k =>
    let g := groupOf Row.region t k
    { category := k, sales := round2q (sumSales g), profit := round2q (sumProfit g) })

/-- A `/kpis-by-category` response record; `margin` is a float value because
the source divides by the group's sales sum without guarding zero. -/
structure CatKpiRec where
  category : String
  sales : ℚ
  profit : ℚ
  orders : ℕ
  margin : FVal
deriving DecidableEq

/-- `kpis_by_category` (`src/main.py` lines 145-158). -/
def kpis_by_category (t : List Row) : List CatKpiRec :=
  (groupKeys strLe Row.category t).map (fun k =>
    let g := groupOf Row.category t k
    { category := k, sales := round2q (sumSales g), profit := round2q (sumProfit g),
      orders := g.length,
      margin := FVal.round2 (FVal.mul100 (fdiv (sumProfit g) (sumSales g))) })

/-- A `/sales-by-segment` response record. -/
structure SegRec where
  segment : String
  sales : ℚ
  profit : ℚ
  orders : ℕ
deriving DecidableEq

/-- `sales_by_segment` (`src/main.py` lines 233-245). -/
def sales_by_segment (t : List Row) : List SegRec :=
  (groupKeys strLe Row.segment t).map (fun k =>
    let g := groupOf Row.segment t k
    { segment := k, sales := round2q (sumSales g), profit := round2q (sumProfit g),
      orders := g.length })

/-- A `/sales-by-subcategory` response record. -/
structure SubRec where
  subCategory : String
  sales : ℚ
  profit : ℚ
  margin : FVal
deriving DecidableEq

/-- `sales_by_subcategory` (`src/main.py` lines 248-260). -/
def sales_by_subcategory (t : List Row) : List SubRec :=
  (groupKeys strLe Row.subCategory t).map (fun k =>
    let g := groupOf Row.subCategory t k
    { subCategory := k, sales := round2q (sumSales g), profit := round2q (sumProfit g),
      margin := FVal.round2 (FVal.mul100 (fdiv (sumProfit g) (sumSales g))) })

/-- `strftime("%b")` of the first day of month `m` (as built on line 105 of
the source from the group's month number). -/
def monthAbbrev : ℕ → String
  | 1 => "Jan"
  | 2 => "Feb"
  | 3 => "Mar"
  | 4 => "Apr"
  | 5 => "May"
  | 6 => "Jun"
  | 7 => "Jul"
  | 8 => "Aug"
  | 9 => "Sep"
  | 10 => "Oct"
  | 11 => "Nov"
  | 12 => "Dec"
  | _ => ""

/-- A `/sales-by-month` response record. -/
structure MonthRec where
  month : String
  sales : ℚ
deriving DecidableEq

/-- `sales_by_month` (`src/main.py` lines 94-109): group by the calendar
month number of `Order Date` (all years collapsed), sort ascending by month
number, render the number as a 3-letter abbreviation. -/
def sales_by_month (t : List Row) : List MonthRec :=
  (groupKeys (· ≤ ·) (fun r => some r.orderDate.month) t).map (fun m =>
    { month := monthAbbrev m,
      sales := round2q (sumSales (groupOf (fun r => some r.orderDate.month) t m)) })

/-- The `(year, month)` period of a row's order date
(`df["Order Date"].dt.to_period("M")`). -/
def periodOf (r : Row) : ℤ × ℕ := (r.orderDate.year, r.orderDate.month)

/-- Chronological order on `(year, month)` periods. -/
def pLe (a b : ℤ × ℕ) : Prop := a.1 < b.1 ∨ (a.1 = b.1 ∧ a.2 ≤ b.2)

instance (a b : ℤ × ℕ) : Decidable (pLe a b) :=
  inferInstanceAs (Decidable (_ ∨ _))

instance : IsTotal (ℤ × ℕ) pLe := ⟨by intro a b; unfold pLe; omega⟩

instance : IsTrans (ℤ × ℕ) pLe := ⟨by intro a b c; unfold pLe; omega⟩

/-- Zero-pad a month number to two digits. -/
def pad2 (n : ℕ) : String := if n < 10 then "0" ++ toString n else toString n

/-- Zero-pad a (non-negative) year to four digits. -/
def pad4 (z : ℤ) : String :=
  if 0 ≤ z then
    (if z < 10 then "000" else if z < 100 then "00" else if z < 1000 then "0" else "")
      ++ toString z
  else toString z

/-- `period.strftime("%Y-%m")`. -/
def fmtPeriod (p : ℤ × ℕ) : String := pad4 p.1 ++ "-" ++ pad2 p.2

/-- A `/sales-growth` response record; `growth_pct` is a float value because
a previous-period sales sum of zero divides to `±inf`/`NaN`. -/
structure GrowthRec where
  month : String
  sales : ℚ
  growth_pct : FVal
deriving DecidableEq

/-- The sales sum of one `(year, month)` period. -/
def periodSales (t : List Row) (p : ℤ × ℕ) : ℚ :=
  sumSales (groupOf (fun r => some (periodOf r)) t p)

/-- The distinct periods of the table in chronological order. -/
def sortedPeriods (t : List Row) : List (ℤ × ℕ) :=
  groupKeys pLe (fun r => some (periodOf r)) t

/-- `(sales - prev_sales) / prev_sales * 100` where `prev_sales` is the
shifted column: `NaN` for the first row (shift fills `NaN`, and arithmetic
on `NaN` stays `NaN`), float division otherwise. -/
def growthF : Option ℚ → ℚ → FVal
  | none, _ => .nan
  | some prev, cur => FVal.mul100 (fdiv (cur - prev) prev)

/-- `sales_growth` (`src/main.py` lines 201-229): per-period sales sums in
chronological order, `prev_sales` = the column shifted by one,
`growth_pct` from the shifted column, then `dropna(subset=["growth_pct"])`
(which removes the first period's row and any `0/0` row). -/
def sales_growth (t : List Row) : List GrowthRec :=
  ((((sortedPeriods t).zip ((sortedPeriods t).map (periodSales t))).zip
      (none :: ((sortedPeriods t).map (periodSales t)).map some)).filter
    (fun x => !(growthF x.2 x.1.2).isNan)).map (fun x =>
    { month := fmtPeriod x.1.1, sales := round2q x.1.2,
      growth_pct := FVal.round2 (growthF x.2 x.1.2) })

/-- `df.head(n)` on a frame of `len` rows: the first `n` rows for `n ≥ 0`,
and all but the last `|n|` rows for negative `n`. -/
def pdHead {α : Type} (n : ℤ) (l : List α) : List α :=
  if 0 ≤ n then l.take n.toNat else l.take (l.length - (-n).toNat)

/-- A `/top-products` / `/loss-making-products` response record. -/
structure ProdRec where
  productName : String
  sales : ℚ
  profit : ℚ
deriving DecidableEq

/-- The per-product aggregation shared by `top_products`,
`loss_making_products` and `alerts`: keys ascending, unrounded sums. -/
def prodEntries (t : List Row) : List ProdRec :=
  (groupKeys strLe Row.productName t).map (fun k =>
    let g := groupOf Row.productName t k
    { productName := k, sales := sumSales g, profit := sumProfit g })

/-- `top_products` (`src/main.py` lines 187-197): sort descending by sales,
`head(limit)`, then round. -/
def top_products (t : List Row) (limit : ℤ) : List ProdRec :=
  (pdHead limit (List.insertionSort (fun a b => b.sales ≤ a.sales) (prodEntries t))).map
    (fun x => { x with sales := round2q x.sales, profit := round2q x.profit })

/-- `loss_making_products` (`src/main.py` lines 263-277): keep products with
negative total profit, sort ascending by profit, `head(limit)`, round. -/
def loss_making_products (t : List Row) (limit : ℤ) : List ProdRec :=
  (pdHead limit (List.insertionSort (fun a b => a.profit ≤ b.profit)
      ((prodEntries t).filter (fun x => decide (x.profit < 0))))).map
    (fun x => { x with sales := round2q x.sales, profit := round2q x.profit })

/-- A `/top-customers` response record. -/
structure CustRec where
  customerName : String
  sales : ℚ
  orders : ℕ
deriving DecidableEq

/-- The per-customer aggregation of `top_customers`: keys ascending,
unrounded sums and counts. -/
def custEntries (t : List Row) : List CustRec :=
  (groupKeys strLe Row.customerName t).map (fun k =>
    let g := groupOf Row.customerName t k
    { customerName := k, sales := sumSales g, orders := g.length })

/-- `top_customers` (`src/main.py` lines 280-293). -/
def top_customers (t : List Row) (limit : ℤ) : List CustRec :=
  (pdHead limit (List.insertionSort (fun a b => b.sales ≤ a.sales) (custEntries t))).map
    (fun x => { x with sales := round2q x.sales })

/-- A `/customer-pareto` response record; `cum_pct` is a float value because
a grand total of zero divides to `NaN`. -/
structure ParetoRec where
  customerName : String
  sales : ℚ
  cum_pct : FVal
deriving DecidableEq

/-- The per-customer sales sums of `customer_pareto`, sorted descending by
sales (`src/main.py` lines 298-303). -/
def paretoBase (t : List Row) : List (String × ℚ) :=
  List.insertionSort (fun a b => b.2 ≤ a.2)
    ((groupKeys strLe Row.customerName t).map
      (fun k => (k, sumSales (groupOf Row.customerName t k))))

/-- `customer_pareto` (`src/main.py` lines 296-308): after the descending
sort, `cum_pct = cumsum(sales) / total * 100`, then everything is rounded. -/
def customer_pareto (t : List Row) : List ParetoRec :=
  ((paretoBase t).zip ((List.range (paretoBase t).length).map
      (fun i => (((paretoBase t).map Prod.snd).take (i + 1)).sum))).map (fun x =>
    { customerName := x.1.1, sales := round2q x.1.2,
      cum_pct := FVal.round2 (FVal.mul100 (fdiv x.2 (((paretoBase t).map Prod.snd).sum))) })

/-- A `/sales-by-state` response record. -/
structure StateRec where
  state : String
  sales : ℚ
deriving DecidableEq

/-- `sales_by_state` (`src/main.py` lines 174-183): group by state, sum
sales, sort descending by sales, then round. -/
def sales_by_state (t : List Row) : List StateRec :=
  (List.insertionSort (fun a b => b.sales ≤ a.sales)
    ((groupKeys strLe Row.state t).map (fun k =>
      ({ state := k, sales := sumSales (groupOf Row.state t k) } : StateRec)))).map
    (fun x => { x with sales := round2q x.sales })

/-- A `/shipping-analysis` response record; the mean delivery time is a float
value because the mean of an all-`NaN` column is `NaN`. -/
structure ShipRec where
  shipMode : String
  avg_delivery_days : FVal
  sales : ℚ
  profit : ℚ
deriving DecidableEq

/-- `shipping_analysis` (`src/main.py` lines 314-326): group by ship mode;
the `delivery_days` mean skips the rows where the column is `NaN` (absent
ship date), as the pandas `mean` aggregate does. -/
def shipping_analysis (t : List Row) : List ShipRec :=
  (groupKeys strLe Row.shipMode t).map (fun k =>
    let g := groupOf Row.shipMode t k
    let dd := g.filterMap Row.deliveryDays
    { shipMode := k,
      avg_delivery_days := FVal.round2 (fdiv ((dd.map (fun z => (z : ℚ))).sum) (dd.length : ℚ)),
      sales := round2q (sumSales g), profit := round2q (sumProfit g) })

/-- The distinct values of a list in first-occurrence order: the order the
spec prescribes for group-by output where it leaves ordering unspecified. -/
def firstOcc (l : List String) : List String :=
  l.foldl (fun acc x => if x ∈ acc then acc else acc ++ [x]) []

theorem roundHalfEven_ge (q : ℚ) : ⌊q⌋ ≤ roundHalfEven q := by
  unfold roundHalfEven; split_ifs <;> omega

theorem roundHalfEven_le (q : ℚ) : roundHalfEven q ≤ ⌊q⌋ + 1 := by
  unfold roundHalfEven; split_ifs <;> omega

theorem roundHalfEven_le_int {q : ℚ} {n : ℤ} (h : q ≤ (n : ℚ)) : roundHalfEven q ≤ n := by
  have hfn : ⌊q⌋ ≤ n := by
    have := Int.floor_le_floor h
    simpa using this
  have hfl : (⌊q⌋ : ℚ) ≤ q := Int.floor_le q
  unfold roundHalfEven
  split_ifs with h1 h2 h3
  · exact hfn
  · have : (⌊q⌋ : ℚ) < (n : ℚ) := by linarith
    have : ⌊q⌋ < n := by exact_mod_cast this
    omega
  · exact hfn
  · have hr : (1 : ℚ)/2 ≤ q - ⌊q⌋ := le_of_not_lt h1
    have : (⌊q⌋ : ℚ) < (n : ℚ) := by linarith
    have : ⌊q⌋ < n := by exact_mod_cast this
    omega

theorem roundHalfEven_mono {a b : ℚ} (h : a ≤ b) : roundHalfEven a ≤ roundHalfEven b := by
  rcases lt_or_ge ⌊a⌋ ⌊b⌋ with hf | hf
  · calc roundHalfEven a ≤ ⌊a⌋ + 1 := roundHalfEven_le a
      _ ≤ ⌊b⌋ := by omega
      _ ≤ roundHalfEven b := roundHalfEven_ge b
  · have hfe : ⌊a⌋ = ⌊b⌋ := le_antisymm (Int.floor_le_floor h) hf
    unfold roundHalfEven
    rw [hfe]
    have h1 : a - (⌊b⌋ : ℚ) ≤ b - (⌊b⌋ : ℚ) := by linarith
    split_ifs <;> first | omega | linarith

theorem abs_roundHalfEven_sub_le (q : ℚ) : |((roundHalfEven q : ℤ) : ℚ) - q| ≤ 1/2 := by
  have hfl : (⌊q⌋ : ℚ) ≤ q := Int.floor_le q
  have hfu : q < (⌊q⌋ : ℚ) + 1 := Int.lt_floor_add_one q
  unfold roundHalfEven
  split_ifs with h1 h2 h3 <;> rw [abs_le] <;> constructor <;> push_cast <;> linarith

theorem round2q_mono {a b : ℚ} (h : a ≤ b) : round2q a ≤ round2q b := by
  unfold round2q
  have h1 : roundHalfEven (a * 100) ≤ roundHalfEven (b * 100) :=
    roundHalfEven_mono (by linarith)
  have h2 : ((roundHalfEven (a * 100) : ℤ) : ℚ) ≤ ((roundHalfEven (b * 100) : ℤ) : ℚ) := by
    exact_mod_cast h1
  linarith

theorem round2q_le_100 {a : ℚ} (h : a ≤ 100) : round2q a ≤ 100 := by
  unfold round2q
  have h1 : a * 100 ≤ ((10000 : ℤ) : ℚ) := by push_cast; linarith
  have h2 : roundHalfEven (a * 100) ≤ 10000 := roundHalfEven_le_int h1
  have h3 : ((roundHalfEven (a * 100) : ℤ) : ℚ) ≤ 10000 := by exact_mod_cast h2
  linarith

theorem round2q_zero : round2q 0 = 0 := by with_unfolding_all decide

theorem abs_round2q_sub_le (q : ℚ) : |round2q q - q| ≤ 1/200 := by
  unfold round2q
  have h := abs_roundHalfEven_sub_le (q * 100)
  rw [abs_le] at h ⊢
  constructor <;> [linarith; linarith]

/-- The table refuting C1's lower bound: one transaction with positive sales
and a larger negative profit. -/
def tblC1 : List Row := [ { sales := 100, profit := -50 } ]

/-- C1 counterexample: on a table whose total profit is negative the `kpis`
margin is `100 * (-50) / 100 = -50`, which is below `0`, so the returned
margin is not always in `[0, 100]`. -/
theorem C1_counterexample : (get_kpis tblC1).margin = -50 ∧ (get_kpis tblC1).margin < 0 := by
  constructor <;> with_unfolding_all decide

/-- C1 (amended): the `kpis` margin equals `100 * totalProfit / totalSales`
clamped to at most `100`, and is `0` when `totalSales ≤ 0`; it is therefore
never above `100`, but it is not clamped below and is negative whenever total
profit is negative with positive total sales. -/
theorem C1_kpis_margin (t : List Row) :
    (get_kpis t).margin ≤ 100 ∧ (sumSales t ≤ 0 → (get_kpis t).margin = 0) := by
  unfold get_kpis
  constructor
  · exact round2q_le_100 (min_le_right _ _)
  · intro h
    have hns : ¬ 0 < sumSales t := not_lt.mpr h
    simp only [hns, if_false]
    rw [min_eq_left (by norm_num)]
    exact round2q_zero

/-- Witness for C1: on a concrete table with zero total sales, the theorem's
zero-sales hypothesis is discharged and the margin evaluates to `0`. -/
theorem C1_kpis_margin_witness : (get_kpis [ { sales := 0, profit := 3 } ]).margin = 0 :=
  (C1_kpis_margin [ { sales := 0, profit := 3 } ]).2 (by with_unfolding_all decide)

/-- The spec's own two-row example table: Jan-2021 sales 100 profit 10,
Feb-2021 sales 150 profit -5. -/
def tblC2 : List Row :=
  [ { orderDate := ⟨2021, 1, 15⟩, sales := 100, profit := 10 },
    { orderDate := ⟨2021, 2, 20⟩, sales := 150, profit := -5 } ]

/-- C2: on the two-row example table, `sales-by-month` returns Jan 100 then
Feb 150, `sales-growth` returns exactly one record for 2021-02 with sales 150
and growth 50%, and `kpis` returns totals 250 and 5, 2 orders, margin 2 and
average ticket 125. -/
theorem C2_example :
    sales_by_month tblC2 = [⟨"Jan", 100⟩, ⟨"Feb", 150⟩] ∧
    sales_growth tblC2 = [⟨"2021-02", 150, FVal.fin 50⟩] ∧
    get_kpis tblC2 = ⟨250, 5, 2, 2, 125⟩ := by
  refine ⟨?_, ?_, ?_⟩ <;> with_unfolding_all decide

theorem nodup_groupKeys {κ : Type} [DecidableEq κ] (r : κ → κ → Prop) [DecidableRel r]
    (f : Row → Option κ) (t : List Row) : (groupKeys r f t).Nodup :=
  ((List.perm_insertionSort r _).nodup_iff).mpr (List.nodup_dedup _)

theorem pairwise_strict_groupKeys {κ : Type} [DecidableEq κ] (r : κ → κ → Prop)
    [DecidableRel r] [IsTotal κ r] [IsTrans κ r] (f : Row → Option κ) (t : List Row) :
    (groupKeys r f t).Pairwise (fun a b => r a b ∧ a ≠ b) :=
  List.Pairwise.and (List.sorted_insertionSort r _) (nodup_groupKeys r f t)

theorem mem_groupKeys {κ : Type} [DecidableEq κ] {r : κ → κ → Prop} [DecidableRel r]
    {f : Row → Option κ} {t : List Row} {k : κ} :
    k ∈ groupKeys r f t ↔ some k ∈ t.map f := by
  unfold groupKeys keysOf
  rw [(List.perm_insertionSort r _).mem_iff, List.mem_dedup, List.mem_filterMap,
    List.mem_map]

theorem sales_by_category_keys (t : List Row) :
    (sales_by_category t).map CatRec.category = groupKeys strLe Row.category t := by
  unfold sales_by_category
  rw [List.map_map]
  exact List.map_id _

theorem kpis_by_category_keys (t : List Row) :
    (kpis_by_category t).map CatKpiRec.category = groupKeys strLe Row.category t := by
  unfold kpis_by_category
  rw [List.map_map]
  exact List.map_id _

theorem sales_by_region_keys (t : List Row) :
    (sales_by_region t).map CatRec.category = groupKeys strLe Row.region t := by
  unfold sales_by_region
  rw [List.map_map]
  exact List.map_id _

theorem sales_by_segment_keys (t : List Row) :
    (sales_by_segment t).map SegRec.segment = groupKeys strLe Row.segment t := by
  unfold sales_by_segment
  rw [List.map_map]
  exact List.map_id _

theorem sales_by_subcategory_keys (t : List Row) :
    (sales_by_subcategory t).map SubRec.subCategory = groupKeys strLe Row.subCategory t := by
  unfold sales_by_subcategory
  rw [List.map_map]
  exact List.map_id _

theorem shipping_analysis_keys (t : List Row) :
    (shipping_analysis t).map ShipRec.shipMode = groupKeys strLe Row.shipMode t := by
  unfold shipping_analysis
  rw [List.map_map]
  exact List.map_id _

/-- The table refuting C3: the category (and segment) keys are encountered
in the order B, A while scanning the rows, but the output is sorted. -/
def tblC3 : List Row :=
  [ { category := some "B", segment := some "S2", sales := 1 },
    { category := some "A", segment := some "S1", sales := 2 } ]

/-- C3 counterexample: on a table whose categories appear in the order
`["B", "A"]`, the `sales-by-category` output keys are `["A", "B"]` —
sorted ascending, not first-occurrence order. -/
theorem C3_counterexample :
    firstOcc (tblC3.filterMap Row.category) = ["B", "A"] ∧
    (sales_by_category tblC3).map CatRec.category = ["A", "B"] ∧
    (["A", "B"] : List String) ≠ ["B", "A"] := by
  refine ⟨?_, ?_, ?_⟩ <;> with_unfolding_all decide

/-- C3 (amended): for every group-by operation whose ordering the spec leaves
unspecified (sales-by-category, kpis-by-category, sales-by-region,
sales-by-segment, sales-by-sub-category, shipping analysis), the output
records appear sorted strictly ascending by group key — the pandas
`groupby(sort=True)` default — not in first-occurrence order. -/
theorem C3_group_order (t : List Row) :
    ((sales_by_category t).map CatRec.category).Pairwise (fun a b => strLe a b ∧ a ≠ b) ∧
    ((kpis_by_category t).map CatKpiRec.category).Pairwise (fun a b => strLe a b ∧ a ≠ b) ∧
    ((sales_by_region t).map CatRec.category).Pairwise (fun a b => strLe a b ∧ a ≠ b) ∧
    ((sales_by_segment t).map SegRec.segment).Pairwise (fun a b => strLe a b ∧ a ≠ b) ∧
    ((sales_by_subcategory t).map SubRec.subCategory).Pairwise (fun a b => strLe a b ∧ a ≠ b) ∧
    ((shipping_analysis t).map ShipRec.shipMode).Pairwise (fun a b => strLe a b ∧ a ≠ b) := by
  rw [sales_by_category_keys, kpis_by_category_keys, sales_by_region_keys,
    sales_by_segment_keys, sales_by_subcategory_keys, shipping_analysis_keys]
  exact ⟨pairwise_strict_groupKeys _ _ _, pairwise_strict_groupKeys _ _ _,
    pairwise_strict_groupKeys _ _ _, pairwise_strict_groupKeys _ _ _,
    pairwise_strict_groupKeys _ _ _, pairwise_strict_groupKeys _ _ _⟩

theorem sum_map_ite_eq {κ : Type} [DecidableEq κ] {K : List κ} (hK : K.Nodup) {k0 : κ}
    (hk : k0 ∈ K) (a : ℚ) :
    (K.map (fun k => if k = k0 then a else 0)).sum = a := by
  induction K with
  | nil => cases hk
  | cons x xs ih =>
    rw [List.map_cons, List.sum_cons]
    rcases List.mem_cons.mp hk with h | h
    · rw [if_pos h.symm]
      have hx : x ∉ xs := (List.nodup_cons.mp hK).1
      have hz : (xs.map (fun k => if k = k0 then a else 0)).sum = 0 := by
        apply List.sum_eq_zero
        intro y hy
        obtain ⟨k, hkxs, hky⟩ := List.mem_map.mp hy
        have hne : k ≠ k0 := by
          intro he
          subst he
          exact hx (h ▸ hkxs)
        rw [if_neg hne] at hky
        exact hky.symm
      rw [hz]; ring
    · have hx : x ∉ xs := (List.nodup_cons.mp hK).1
      have hne : x ≠ k0 := fun he => hx (he ▸ h)
      rw [if_neg hne, ih (List.nodup_cons.mp hK).2 h]
      ring

theorem sum_groups_filter {κ : Type} [DecidableEq κ] {K : List κ} (hK : K.Nodup)
    (f : Row → Option κ) (g : Row → ℚ) :
    ∀ t : List Row, (∀ row ∈ t, ∃ k ∈ K, f row = some k) →
      (K.map (fun k => ((t.filter (fun x => f x = some k)).map g).sum)).sum
        = (t.map g).sum := by
  intro t
  induction t with
  | nil => intro _; simp
  | cons r rest ih =>
    intro ht
    obtain ⟨k0, hk0K, hk0⟩ := ht r (List.mem_cons_self r rest)
    have hrest : ∀ row ∈ rest, ∃ k ∈ K, f row = some k :=
      fun row hrow => ht row (List.mem_cons_of_mem _ hrow)
    have hfun : (fun k => (((r :: rest).filter (fun x => f x = some k)).map g).sum)
        = fun k => (if k = k0 then g r else 0)
            + ((rest.filter (fun x => f x = some k)).map g).sum := by
      funext k
      by_cases h : k = k0
      · subst h
        rw [if_pos rfl]
        simp [List.filter_cons, hk0]
      · have hne : ¬ f r = some k := by
          rw [hk0]
          simp only [Option.some.injEq]
          exact fun he => h he.symm
        simp [List.filter_cons, hne, h]
    rw [hfun, List.sum_map_add, sum_map_ite_eq hK hk0K (g r), ih hrest,
      List.map_cons, List.sum_cons]

theorem groups_sum_eq {κ : Type} [DecidableEq κ] (r : κ → κ → Prop) [DecidableRel r]
    (f : Row → Option κ) (g : Row → ℚ) (t : List Row)
    (h : ∀ row ∈ t, (f row).isSome) :
    ((groupKeys r f t).map (fun k => ((groupOf f t k).map g).sum)).sum = (t.map g).sum := by
  have hperm : ((groupKeys r f t).map
      (fun k => ((groupOf f t k).map g).sum)).Perm
      ((keysOf f t).map (fun k => ((groupOf f t k).map g).sum)) :=
    (List.perm_insertionSort r _).map _
  rw [hperm.sum_eq]
  unfold groupOf
  apply sum_groups_filter (List.nodup_dedup _) f g t
  intro row hrow
  obtain ⟨k, hk⟩ := Option.isSome_iff_exists.mp (h row hrow)
  refine ⟨k, ?_, hk⟩
  rw [List.mem_dedup, List.mem_filterMap]
  exact ⟨row, hrow, hk⟩

theorem abs_sum_round2q_sub_le (l : List ℚ) :
    |(l.map round2q).sum - l.sum| ≤ (l.length : ℚ) / 200 := by
  induction l with
  | nil => simp
  | cons x xs ih =>
    simp only [List.map_cons, List.sum_cons, List.length_cons]
    have h1 := abs_round2q_sub_le x
    have h2 : |(round2q x + (xs.map round2q).sum) - (x + xs.sum)|
        ≤ |round2q x - x| + |(xs.map round2q).sum - xs.sum| := by
      have : (round2q x + (xs.map round2q).sum) - (x + xs.sum)
          = (round2q x - x) + ((xs.map round2q).sum - xs.sum) := by ring
      rw [this]
      exact abs_add _ _
    have h3 : ((xs.length + 1 : ℕ) : ℚ) = (xs.length : ℚ) + 1 := by push_cast; ring
    rw [h3]
    calc |(round2q x + (xs.map round2q).sum) - (x + xs.sum)|
        ≤ |round2q x - x| + |(xs.map round2q).sum - xs.sum| := h2
      _ ≤ 1/200 + (xs.length : ℚ)/200 := add_le_add h1 ih
      _ = ((xs.length : ℚ) + 1) / 200 := by ring

/-- The table refuting C4: its single row has a missing category, so it is
excluded from every group but still counted in the overall KPI totals. -/
def tblC4 : List Row := [ { category := none, sales := 50 } ]

/-- C4 counterexample: on a table with one row whose category is missing,
`sales-by-category` is empty (group sales sum 0) while `kpis.totalSales` is
50, so the partition identity fails for this input table. -/
theorem C4_counterexample :
    sales_by_category tblC4 = [] ∧ (get_kpis tblC4).totalSales = 50 := by
  constructor <;> with_unfolding_all decide

/-- C4 (amended): when every row has a (non-null) category the per-group
sales of `sales-by-category` sum to `kpis.totalSales` up to the 2-decimal
output rounding — at most half a cent per rounded figure. Rows with a
missing category are excluded from the groups (pandas `dropna=True`), so for
tables containing such rows the identity can fail by the full amount of
their sales. -/
theorem C4_partition (t : List Row) (h : ∀ row ∈ t, (row.category).isSome) :
    |((sales_by_category t).map CatRec.sales).sum - (get_kpis t).totalSales|
      ≤ (((sales_by_category t).length : ℚ) + 1) / 200 := by
  have hlen : (sales_by_category t).length = (groupKeys strLe Row.category t).length := by
    unfold sales_by_category
    rw [List.length_map]
  have hsales : (sales_by_category t).map CatRec.sales
      = ((groupKeys strLe Row.category t).map
          (fun k => ((groupOf Row.category t k).map Row.sales).sum)).map round2q := by
    unfold sales_by_category
    rw [List.map_map, List.map_map]
    rfl
  have hgs : ((groupKeys strLe Row.category t).map
      (fun k => ((groupOf Row.category t k).map Row.sales).sum)).sum
      = (t.map Row.sales).sum :=
    groups_sum_eq strLe Row.category Row.sales t h
  have htot : (get_kpis t).totalSales = round2q (sumSales t) := rfl
  set gl := (groupKeys strLe Row.category t).map
      (fun k => ((groupOf Row.category t k).map Row.sales).sum) with hgl
  have h1 : |(gl.map round2q).sum - gl.sum| ≤ (gl.length : ℚ) / 200 :=
    abs_sum_round2q_sub_le gl
  have h2 : |sumSales t - round2q (sumSales t)| ≤ 1/200 := by
    have := abs_round2q_sub_le (sumSales t)
    rw [abs_sub_comm] at this
    exact this
  have hglen : gl.length = (groupKeys strLe Row.category t).length := by
    rw [hgl, List.length_map]
  rw [hsales, htot, hlen, ← hglen]
  have hsum : gl.sum = sumSales t := hgs
  calc |(gl.map round2q).sum - round2q (sumSales t)|
      = |((gl.map round2q).sum - gl.sum) + (sumSales t - round2q (sumSales t))| := by
        rw [hsum]; ring_nf
    _ ≤ |(gl.map round2q).sum - gl.sum| + |sumSales t - round2q (sumSales t)| := abs_add _ _
    _ ≤ (gl.length : ℚ) / 200 + 1/200 := add_le_add h1 h2
    _ = ((gl.length : ℚ) + 1) / 200 := by ring

/-- The witness table for C4: two rows, each with a category. -/
def tblC4w : List Row :=
  [ { category := some "A", sales := 10 }, { category := some "B", sales := 20 } ]

/-- Witness for C4: the amended bound, instantiated on a concrete fully
categorised table. -/
theorem C4_partition_witness :
    |((sales_by_category tblC4w).map CatRec.sales).sum - (get_kpis tblC4w).totalSales|
      ≤ (((sales_by_category tblC4w).length : ℚ) + 1) / 200 :=
  C4_partition tblC4w (by with_unfolding_all decide)

theorem fdiv_zero_cases (a : ℚ) :
    FVal.round2 (FVal.mul100 (fdiv a 0)) = FVal.nan ∨
    FVal.round2 (FVal.mul100 (fdiv a 0)) = FVal.posInf ∨
    FVal.round2 (FVal.mul100 (fdiv a 0)) = FVal.negInf := by
  unfold fdiv
  rw [if_pos rfl]
  by_cases h1 : 0 < a
  · right; left; simp [h1, FVal.mul100, FVal.round2]
  · by_cases h2 : a < 0
    · right; right; simp [h1, h2, FVal.mul100, FVal.round2]
    · left; simp [h1, h2, FVal.mul100, FVal.round2]

/-- The table refuting C5: a single transaction with zero sales and zero
profit in its (sub-)category group. -/
def tblC5 : List Row :=
  [ { category := some "C", subCategory := some "A", sales := 0, profit := 0 } ]

/-- C5 counterexample: on a table whose only (sub-)category group has zero
sales and zero profit, both margin-producing group-bys place a raw `NaN`
(the float result of `0/0`) in the output record, not a defined sentinel. -/
theorem C5_counterexample :
    (kpis_by_category tblC5).map CatKpiRec.margin = [FVal.nan] ∧
    (sales_by_subcategory tblC5).map SubRec.margin = [FVal.nan] := by
  constructor <;> with_unfolding_all decide

/-- C5 (amended): the aggregation itself never raises on a zero-denominator
margin — a record for the zero-sales group is always returned — but the
undefined margin is not replaced by a defined sentinel: it is the raw float
result of dividing by zero (`NaN` when the group's profit is 0, `±inf`
otherwise), carried into the output record as-is. -/
theorem C5_zero_sales_margin (t : List Row) :
    (∀ rec ∈ kpis_by_category t, sumSales (groupOf Row.category t rec.category) = 0 →
      rec.margin = FVal.nan ∨ rec.margin = FVal.posInf ∨ rec.margin = FVal.negInf) ∧
    (∀ rec ∈ sales_by_subcategory t, sumSales (groupOf Row.subCategory t rec.subCategory) = 0 →
      rec.margin = FVal.nan ∨ rec.margin = FVal.posInf ∨ rec.margin = FVal.negInf) := by
  constructor
  · intro rec hrec h0
    unfold kpis_by_category at hrec
    obtain ⟨k, hkmem, hfk⟩ := List.mem_map.mp hrec
    have hcat : rec.category = k := by rw [← hfk]
    rw [hcat] at h0
    have hm : rec.margin = FVal.round2 (FVal.mul100 (fdiv
        (sumProfit (groupOf Row.category t k)) (sumSales (groupOf Row.category t k)))) := by
      rw [← hfk]
    rw [hm, h0]
    exact fdiv_zero_cases _
  · intro rec hrec h0
    unfold sales_by_subcategory at hrec
    obtain ⟨k, hkmem, hfk⟩ := List.mem_map.mp hrec
    have hcat : rec.subCategory = k := by rw [← hfk]
    rw [hcat] at h0
    have hm : rec.margin = FVal.round2 (FVal.mul100 (fdiv
        (sumProfit (groupOf Row.subCategory t k)) (sumSales (groupOf Row.subCategory t k)))) := by
      rw [← hfk]
    rw [hm, h0]
    exact fdiv_zero_cases _

/-- Witness for C5: on the concrete zero-sales table, the sub-category
record's margin is one of the three non-finite float values (it is `NaN`). -/
theorem C5_zero_sales_margin_witness :
    (⟨"A", 0, 0, FVal.nan⟩ : SubRec).margin = FVal.nan ∨
    (⟨"A", 0, 0, FVal.nan⟩ : SubRec).margin = FVal.posInf ∨
    (⟨"A", 0, 0, FVal.nan⟩ : SubRec).margin = FVal.negInf :=
  (C5_zero_sales_margin tblC5).2 ⟨"A", 0, 0, FVal.nan⟩ (by with_unfolding_all decide)
    (by with_unfolding_all decide)

theorem sales_growth_length_le (t : List Row) :
    (sales_growth t).length ≤ (sortedPeriods t).length - 1 := by
  unfold sales_growth
  rw [List.length_map]
  cases hps : sortedPeriods t with
  | nil => simp
  | cons p ps' =>
    rw [List.map_cons, List.zip_cons_cons, List.map_cons, List.zip_cons_cons,
      List.filter_cons]
    simp only [growthF, FVal.isNan, Bool.not_true, Bool.false_eq_true, if_false]
    calc (List.filter (fun x => !(growthF x.2 x.1.2).isNan)
          ((ps'.zip (ps'.map (periodSales t))).zip
            (some (periodSales t p) :: (ps'.map (periodSales t)).map some))).length
        ≤ ((ps'.zip (ps'.map (periodSales t))).zip
            (some (periodSales t p) :: (ps'.map (periodSales t)).map some)).length :=
          List.length_filter_le _ _
      _ ≤ (p :: ps').length - 1 := by
          rw [List.length_zip, List.length_zip, List.length_map, List.length_cons,
            List.length_map, List.length_map, List.length_cons]
          omega

theorem sales_growth_records (t : List Row) :
    ∀ rec ∈ sales_growth t, ∃ i, ∃ hi : i + 1 < (sortedPeriods t).length,
      rec.month = fmtPeriod ((sortedPeriods t).get ⟨i + 1, hi⟩) ∧
      rec.sales = round2q (periodSales t ((sortedPeriods t).get ⟨i + 1, hi⟩)) ∧
      rec.growth_pct = FVal.round2 (growthF
        (some (periodSales t ((sortedPeriods t).get ⟨i, Nat.lt_of_succ_lt hi⟩)))
        (periodSales t ((sortedPeriods t).get ⟨i + 1, hi⟩))) := by
  intro rec hrec
  unfold sales_growth at hrec
  obtain ⟨x, hxmem, hfx⟩ := List.mem_map.mp hrec
  rw [List.mem_filter] at hxmem
  obtain ⟨hxrows, hxkeep⟩ := hxmem
  obtain ⟨⟨j, hj⟩, hxj⟩ := List.mem_iff_get.mp hxrows
  rw [List.get_eq_getElem] at hxj
  have hjlt : j < (sortedPeriods t).length := by
    have h1 := hj
    rw [List.length_zip, List.length_zip, List.length_map, List.length_cons,
      List.length_map, List.length_map] at h1
    omega
  rw [List.getElem_zip, List.getElem_zip] at hxj
  cases j with
  | zero =>
    exfalso
    rw [← hxj] at hxkeep
    simp [growthF, FVal.isNan] at hxkeep
  | succ i =>
    refine ⟨i, hjlt, ?_, ?_, ?_⟩ <;> rw [← hfx, ← hxj] <;>
      simp only [List.getElem_cons_succ, List.getElem_map, List.get_eq_getElem]

/-- C6: the `sales-growth` output has at most N-1 records for N distinct
chronological months, and every output record belongs to a non-first period
(index `i+1` of the chronological period list) carrying the growth formula
`100 * (sales - prevSales) / prevSales` computed, in float semantics,
against the sales of the immediately preceding period; in particular the
first chronological period never yields a record. -/
theorem C6_sales_growth (t : List Row) :
    (sales_growth t).length ≤ (sortedPeriods t).length - 1 ∧
    (∀ rec ∈ sales_growth t, ∃ i, ∃ hi : i + 1 < (sortedPeriods t).length,
      rec.month = fmtPeriod ((sortedPeriods t).get ⟨i + 1, hi⟩) ∧
      rec.sales = round2q (periodSales t ((sortedPeriods t).get ⟨i + 1, hi⟩)) ∧
      rec.growth_pct = FVal.round2 (growthF
        (some (periodSales t ((sortedPeriods t).get ⟨i, Nat.lt_of_succ_lt hi⟩)))
        (periodSales t ((sortedPeriods t).get ⟨i + 1, hi⟩)))) :=
  ⟨sales_growth_length_le t, sales_growth_records t⟩

/-- The witness table for C6: two transactions in Jan-2021 and Mar-2021. -/
def tblC6 : List Row :=
  [ { orderDate := ⟨2021, 1, 3⟩, sales := 10 },
    { orderDate := ⟨2021, 3, 4⟩, sales := 30 } ]

/-- Witness for C6: the single growth record of the two-period witness table
is the second period with growth `(30 - 10) / 10 * 100 = 200`. -/
theorem C6_sales_growth_witness :
    ∃ i, ∃ hi : i + 1 < (sortedPeriods tblC6).length,
      (⟨"2021-03", 30, FVal.fin 200⟩ : GrowthRec).month
        = fmtPeriod ((sortedPeriods tblC6).get ⟨i + 1, hi⟩) ∧
      (⟨"2021-03", 30, FVal.fin 200⟩ : GrowthRec).sales
        = round2q (periodSales tblC6 ((sortedPeriods tblC6).get ⟨i + 1, hi⟩)) ∧
      (⟨"2021-03", 30, FVal.fin 200⟩ : GrowthRec).growth_pct = FVal.round2 (growthF
        (some (periodSales tblC6 ((sortedPeriods tblC6).get ⟨i, Nat.lt_of_succ_lt hi⟩)))
        (periodSales tblC6 ((sortedPeriods tblC6).get ⟨i + 1, hi⟩))) :=
  (C6_sales_growth tblC6).2 ⟨"2021-03", 30, FVal.fin 200⟩ (by with_unfolding_all decide)

theorem round2q_hundred : round2q 100 = 100 := by with_unfolding_all decide

theorem paretoBase_snd_nonneg (t : List Row) (hnn : ∀ r ∈ t, 0 ≤ r.sales) :
    ∀ c ∈ (paretoBase t).map Prod.snd, 0 ≤ c := by
  intro c hc
  obtain ⟨e, he, hec⟩ := List.mem_map.mp hc
  unfold paretoBase at he
  have he2 := (List.perm_insertionSort _ _).mem_iff.mp he
  obtain ⟨k, hk, hke⟩ := List.mem_map.mp he2
  rw [← hec, ← hke]
  show (0 : ℚ) ≤ sumSales (groupOf Row.customerName t k)
  apply List.sum_nonneg
  intro y hy
  obtain ⟨row, hrow, hry⟩ := List.mem_map.mp hy
  rw [← hry]
  have hrt : row ∈ t := by
    unfold groupOf at hrow
    exact (List.mem_filter.mp hrow).1
  exact hnn row hrt

theorem sum_take_mono {l : List ℚ} (h : ∀ c ∈ l, 0 ≤ c) (n : ℕ) :
    (l.take (n + 1)).sum ≤ (l.take (n + 2)).sum := by
  rcases lt_or_ge (n + 1) l.length with hlt | hge
  · rw [List.sum_take_succ l (n + 1) hlt]
    have h0 : 0 ≤ l[n + 1] := h _ (List.getElem_mem hlt)
    linarith
  · rw [List.take_of_length_le hge, List.take_of_length_le (by omega)]

/-- The table refuting C7: non-empty, but its single customer has zero
sales, so the grand total is zero and every `cum_pct` is `0/0 = NaN`. -/
def tblC7 : List Row := [ { customerName := some "A", sales := 0 } ]

/-- C7 counterexample: on a non-empty table whose only customer's sales sum
is zero, the pareto output's single `cum_pct` is `NaN` — neither equal to
100 within any tolerance nor a finite value. -/
theorem C7_counterexample :
    tblC7 ≠ [] ∧ (customer_pareto tblC7).map ParetoRec.cum_pct = [FVal.nan] := by
  constructor
  · intro h; cases h
  · with_unfolding_all decide

/-- C7 (amended): when every row's sales is non-negative and the grouped
grand total is positive, every `cum_pct` in the `customer-pareto` output is
finite, the sequence of `cum_pct` values is non-decreasing, and the last one
equals exactly 100. On a non-empty table violating the positivity proviso
(all-zero sales) the values are `NaN` instead. -/
theorem C7_pareto (t : List Row) (hnn : ∀ r ∈ t, 0 ≤ r.sales)
    (hpos : 0 < ((paretoBase t).map Prod.snd).sum) :
    ∃ qs : List ℚ,
      (customer_pareto t).map ParetoRec.cum_pct = qs.map FVal.fin ∧
      qs.Chain' (· ≤ ·) ∧
      qs.getLast? = some 100 := by
  have htne : ((paretoBase t).map Prod.snd).sum ≠ 0 := ne_of_gt hpos
  refine ⟨(List.range (paretoBase t).length).map
    (fun i => round2q ((((paretoBase t).map Prod.snd).take (i + 1)).sum
      / ((paretoBase t).map Prod.snd).sum * 100)), ?_, ?_, ?_⟩
  · unfold customer_pareto
    apply List.ext_getElem
    · simp only [List.length_map, List.length_zip, List.length_range]
      exact inf_idem _
    · intro i h1 h2
      simp only [List.getElem_map, List.getElem_zip, List.getElem_range]
      simp only [fdiv, if_neg htne, FVal.mul100, FVal.round2]
  · rw [List.chain'_map]
    cases hn : (paretoBase t).length with
    | zero => simp
    | succ m =>
      rw [List.chain'_range_succ]
      intro i _
      apply round2q_mono
      have hstep := sum_take_mono (paretoBase_snd_nonneg t hnn) i
      have hdiv : (((paretoBase t).map Prod.snd).take (i + 1)).sum
            / ((paretoBase t).map Prod.snd).sum
          ≤ (((paretoBase t).map Prod.snd).take (i + 2)).sum
            / ((paretoBase t).map Prod.snd).sum :=
        (div_le_div_iff_of_pos_right hpos).mpr hstep
      nlinarith
  · cases hn : (paretoBase t).length with
    | zero =>
      exfalso
      have hnil : (paretoBase t).map Prod.snd = [] := by
        have : ((paretoBase t).map Prod.snd).length = 0 := by
          rw [List.length_map, hn]
        exact List.length_eq_zero.mp this
      rw [hnil] at hpos
      simp at hpos
    | succ m =>
      rw [List.range_succ, List.map_append]
      simp only [List.map_cons, List.map_nil]
      rw [List.getLast?_concat]
      have hlen : ((paretoBase t).map Prod.snd).length = m + 1 := by
        rw [List.length_map, hn]
      rw [List.take_of_length_le (by omega), div_self htne, one_mul, round2q_hundred]

/-- The witness table for C7: two customers with positive sales 30 and 10. -/
def tblC7w : List Row :=
  [ { customerName := some "A", sales := 30 },
    { customerName := some "B", sales := 10 } ]

/-- Witness for C7: the amended pareto invariants instantiated on a concrete
two-customer table with positive total sales. -/
theorem C7_pareto_witness :
    ∃ qs : List ℚ,
      (customer_pareto tblC7w).map ParetoRec.cum_pct = qs.map FVal.fin ∧
      qs.Chain' (· ≤ ·) ∧
      qs.getLast? = some 100 :=
  C7_pareto tblC7w (by with_unfolding_all decide) (by with_unfolding_all decide)

theorem pdHead_neg_length {α : Type} (n : ℤ) (hn : n < 0) (l : List α) :
    (pdHead n l).length = l.length - n.natAbs := by
  unfold pdHead
  rw [if_neg (by omega), List.length_take]
  have habs : (-n).toNat = n.natAbs := by omega
  rw [habs]
  exact inf_eq_left.mpr (by omega)

/-- The table refuting C8: two products and two customers, each with
negative profit, queried with the malformed limit `-1`. -/
def tblC8 : List Row :=
  [ { productName := some "P", customerName := some "X", sales := 1, profit := -1 },
    { productName := some "Q", customerName := some "Y", sales := 2, profit := -2 } ]

/-- C8 counterexample: with limit `-1` each of the three limit-taking
operations returns one of its two candidate records — neither an empty list
(clamp to 0) nor a validation error, so the claimed behaviour does not hold. -/
theorem C8_counterexample :
    (top_products tblC8 (-1)).length = 1 ∧
    (top_customers tblC8 (-1)).length = 1 ∧
    (loss_making_products tblC8 (-1)).length = 1 := by
  refine ⟨?_, ?_, ?_⟩ <;> with_unfolding_all decide

/-- C8 (amended): a negative limit does not crash — the three operations are
total — but it is neither clamped to 0 nor rejected: following pandas
`head(n)` semantics for negative `n`, each operation returns all but the
last `|n|` of its candidate records, consistently across the three. -/
theorem C8_negative_limit (t : List Row) (n : ℤ) (hn : n < 0) :
    (top_products t n).length = (prodEntries t).length - n.natAbs ∧
    (top_customers t n).length = (custEntries t).length - n.natAbs ∧
    (loss_making_products t n).length
      = ((prodEntries t).filter (fun x => decide (x.profit < 0))).length - n.natAbs := by
  refine ⟨?_, ?_, ?_⟩
  · unfold top_products
    rw [List.length_map, pdHead_neg_length n hn, (List.perm_insertionSort _ _).length_eq]
  · unfold top_customers
    rw [List.length_map, pdHead_neg_length n hn, (List.perm_insertionSort _ _).length_eq]
  · unfold loss_making_products
    rw [List.length_map, pdHead_neg_length n hn, (List.perm_insertionSort _ _).length_eq]

/-- Witness for C8: the negative-limit length identity instantiated on the
concrete two-product table with limit -1. -/
theorem C8_negative_limit_witness :
    (top_products tblC8 (-1)).length = (prodEntries tblC8).length - (-1 : ℤ).natAbs ∧
    (top_customers tblC8 (-1)).length = (custEntries tblC8).length - (-1 : ℤ).natAbs ∧
    (loss_making_products tblC8 (-1)).length
      = ((prodEntries tblC8).filter (fun x => decide (x.profit < 0))).length
        - (-1 : ℤ).natAbs :=
  C8_negative_limit tblC8 (-1) (by norm_num)

/-- C9: loading keeps exactly the raw rows whose order date parsed — every
canonical record's `orderDate` is the parsed date of its raw row — while a
failed ship-date parse does not drop the row: `shipDate` is simply absent,
and `deliveryDays` is present iff `shipDate` is, in which case it is the
day difference `shipDate - orderDate`. -/
theorem C9_load (raws : List RawRow) :
    (load raws).length = (raws.filter (fun rr => rr.orderDate.isSome)).length ∧
    (∀ row ∈ load raws, ∃ rr ∈ raws, rr.orderDate = some row.orderDate ∧
      rr.shipDate = row.shipDate) ∧
    (∀ row ∈ load raws, (row.deliveryDays.isSome ↔ row.shipDate.isSome) ∧
      ∀ sd, row.shipDate = some sd →
        row.deliveryDays = some (dateDiff sd row.orderDate)) := by
  refine ⟨?_, ?_, ?_⟩
  · unfold load
    rw [List.length_map]
  · intro row hrow
    unfold load at hrow
    obtain ⟨rr, hrr, hconv⟩ := List.mem_map.mp hrow
    have hrrt : rr ∈ raws := (List.mem_filter.mp hrr).1
    have hsome : rr.orderDate.isSome := by
      have h2 := (List.mem_filter.mp hrr).2
      simpa using h2
    obtain ⟨od, hod⟩ := Option.isSome_iff_exists.mp hsome
    refine ⟨rr, hrrt, ?_, ?_⟩
    · rw [← hconv, hod]
      simp [hod]
    · rw [← hconv]
  · intro row hrow
    unfold load at hrow
    obtain ⟨rr, hrr, hconv⟩ := List.mem_map.mp hrow
    constructor
    · rw [← hconv]
      simp
    · intro sd hsd
      rw [← hconv] at hsd ⊢
      simp only at hsd
      simp [hsd]

/-- The witness raw rows for C9: one row with an unparseable order date, one
with both dates, one with an unparseable ship date. -/
def rawsC9 : List RawRow :=
  [ { orderDate := none, shipDate := some ⟨2021, 1, 8⟩, sales := 7 },
    { orderDate := some ⟨2021, 1, 2⟩, shipDate := some ⟨2021, 1, 6⟩, sales := 3 },
    { orderDate := some ⟨2021, 1, 4⟩, shipDate := none, sales := 4 } ]

/-- The canonical row produced from the second witness raw row. -/
def rowC9 : Row :=
  { orderDate := ⟨2021, 1, 2⟩, shipDate := some ⟨2021, 1, 6⟩, sales := 3,
    deliveryDays := some 4 }

/-- Witness for C9: the loaded row with both dates carries
`deliveryDays = shipDate - orderDate` (4 days). -/
theorem C9_load_witness :
    rowC9.deliveryDays = some (dateDiff ⟨2021, 1, 6⟩ rowC9.orderDate) :=
  ((C9_load rawsC9).2.2 rowC9 (by with_unfolding_all decide)).2 ⟨2021, 1, 6⟩ rfl

theorem filterMap_filter_isSome {κ : Type} (f : Row → Option κ) (t : List Row) :
    (t.filter (fun r => (f r).isSome)).filterMap f = t.filterMap f := by
  induction t with
  | nil => rfl
  | cons r rest ih =>
    by_cases h : (f r).isSome
    · rw [List.filter_cons_of_pos (by simpa using h), List.filterMap_cons,
        List.filterMap_cons]
      cases hfr : f r with
      | none => rw [hfr] at h; simp at h
      | some v => simp [ih]
    · rw [List.filter_cons_of_neg (by simpa using h), List.filterMap_cons]
      cases hfr : f r with
      | none => simp [ih]
      | some v => rw [hfr] at h; simp at h

theorem groupOf_filter_isSome {κ : Type} [DecidableEq κ] (f : Row → Option κ)
    (t : List Row) (k : κ) :
    groupOf f (t.filter (fun r => (f r).isSome)) k = groupOf f t k := by
  unfold groupOf
  rw [List.filter_filter]
  apply List.filter_congr
  intro x _
  cases hfx : f x with
  | none => simp [hfx]
  | some v => simp [hfx]

theorem groupKeys_filter_isSome {κ : Type} [DecidableEq κ] (r : κ → κ → Prop)
    [DecidableRel r] (f : Row → Option κ) (t : List Row) :
    groupKeys r f (t.filter (fun x => (f x).isSome)) = groupKeys r f t := by
  unfold groupKeys keysOf
  rw [filterMap_filter_isSome]

theorem mem_pdHead {α : Type} {x : α} (n : ℤ) (l : List α) (h : x ∈ pdHead n l) : x ∈ l := by
  unfold pdHead at h
  split_ifs at h <;> exact List.mem_of_mem_take h

theorem prodEntries_filter_isSome (t : List Row) :
    prodEntries (t.filter (fun r => (r.productName).isSome)) = prodEntries t := by
  unfold prodEntries
  rw [groupKeys_filter_isSome]
  apply List.map_congr_left
  intro k _
  rw [groupOf_filter_isSome]

theorem custEntries_filter_isSome (t : List Row) :
    custEntries (t.filter (fun r => (r.customerName).isSome)) = custEntries t := by
  unfold custEntries
  rw [groupKeys_filter_isSome]
  apply List.map_congr_left
  intro k _
  rw [groupOf_filter_isSome]

theorem paretoBase_filter_isSome (t : List Row) :
    paretoBase (t.filter (fun r => (r.customerName).isSome)) = paretoBase t := by
  unfold paretoBase
  rw [groupKeys_filter_isSome]
  have hmap : (groupKeys strLe Row.customerName t).map
      (fun k => (k, sumSales (groupOf Row.customerName
        (t.filter (fun r => (r.customerName).isSome)) k)))
      = (groupKeys strLe Row.customerName t).map
      (fun k => (k, sumSales (groupOf Row.customerName t k))) := by
    apply List.map_congr_left
    intro k _
    rw [groupOf_filter_isSome]
  rw [hmap]

theorem stateEntries_filter_isSome (t : List Row) :
    (groupKeys strLe Row.state (t.filter (fun r => (r.state).isSome))).map (fun k =>
      ({ state := k,
         sales := sumSales (groupOf Row.state (t.filter (fun r => (r.state).isSome)) k) }
        : StateRec))
    = (groupKeys strLe Row.state t).map (fun k =>
      ({ state := k, sales := sumSales (groupOf Row.state t k) } : StateRec)) := by
  rw [groupKeys_filter_isSome]
  apply List.map_congr_left
  intro k _
  rw [groupOf_filter_isSome]

theorem sales_by_state_key_mem (t : List Row) :
    ∀ rec ∈ sales_by_state t, some rec.state ∈ t.map Row.state := by
  intro rec hrec
  unfold sales_by_state at hrec
  obtain ⟨x, hx, hfx⟩ := List.mem_map.mp hrec
  have hx2 := (List.perm_insertionSort _ _).mem_iff.mp hx
  obtain ⟨k, hk, hkx⟩ := List.mem_map.mp hx2
  have hkey : rec.state = k := by rw [← hfx, ← hkx]
  rw [hkey]
  exact mem_groupKeys.mp hk

theorem top_products_key_mem (t : List Row) (n : ℤ) :
    ∀ rec ∈ top_products t n, some rec.productName ∈ t.map Row.productName := by
  intro rec hrec
  unfold top_products at hrec
  obtain ⟨x, hx, hfx⟩ := List.mem_map.mp hrec
  have hx2 : x ∈ prodEntries t :=
    (List.perm_insertionSort _ _).mem_iff.mp (mem_pdHead n _ hx)
  unfold prodEntries at hx2
  obtain ⟨k, hk, hkx⟩ := List.mem_map.mp hx2
  have hkey : rec.productName = k := by rw [← hfx, ← hkx]
  rw [hkey]
  exact mem_groupKeys.mp hk

theorem loss_making_key_mem (t : List Row) (n : ℤ) :
    ∀ rec ∈ loss_making_products t n, some rec.productName ∈ t.map Row.productName := by
  intro rec hrec
  unfold loss_making_products at hrec
  obtain ⟨x, hx, hfx⟩ := List.mem_map.mp hrec
  have hx2 : x ∈ prodEntries t :=
    (List.mem_filter.mp ((List.perm_insertionSort _ _).mem_iff.mp (mem_pdHead n _ hx))).1
  unfold prodEntries at hx2
  obtain ⟨k, hk, hkx⟩ := List.mem_map.mp hx2
  have hkey : rec.productName = k := by rw [← hfx, ← hkx]
  rw [hkey]
  exact mem_groupKeys.mp hk

theorem top_customers_key_mem (t : List Row) (n : ℤ) :
    ∀ rec ∈ top_customers t n, some rec.customerName ∈ t.map Row.customerName := by
  intro rec hrec
  unfold top_customers at hrec
  obtain ⟨x, hx, hfx⟩ := List.mem_map.mp hrec
  have hx2 : x ∈ custEntries t :=
    (List.perm_insertionSort _ _).mem_iff.mp (mem_pdHead n _ hx)
  unfold custEntries at hx2
  obtain ⟨k, hk, hkx⟩ := List.mem_map.mp hx2
  have hkey : rec.customerName = k := by rw [← hfx, ← hkx]
  rw [hkey]
  exact mem_groupKeys.mp hk

theorem customer_pareto_key_mem (t : List Row) :
    ∀ rec ∈ customer_pareto t, some rec.customerName ∈ t.map Row.customerName := by
  intro rec hrec
  unfold customer_pareto at hrec
  obtain ⟨⟨e, c⟩, hx, hfx⟩ := List.mem_map.mp hrec
  have he : e ∈ paretoBase t := (List.of_mem_zip hx).1
  unfold paretoBase at he
  have he2 := (List.perm_insertionSort _ _).mem_iff.mp he
  obtain ⟨k, hk, hkx⟩ := List.mem_map.mp he2
  have hkey : rec.customerName = k := by rw [← hfx, ← hkx]
  rw [hkey]
  exact mem_groupKeys.mp hk

/-- C10: for every group-by operation — by category (`sales-by-category`,
`kpis-by-category`), region, state, segment, sub-category, product name
(`top-products`, `loss-making-products`), customer name (`top-customers`,
`customer-pareto`), and ship mode (`shipping-analysis`) — rows whose
grouping field is missing are silently excluded: each operation's output on
the full table equals its output on the table with those rows removed (so
their sales, profit and counts enter no group's aggregates and they produce
no record), and every output record's key is a value observed in some row. -/
theorem C10_missing_keys (t : List Row) :
    (sales_by_category t = sales_by_category (t.filter (fun r => (r.category).isSome)) ∧
     kpis_by_category t = kpis_by_category (t.filter (fun r => (r.category).isSome)) ∧
     sales_by_region t = sales_by_region (t.filter (fun r => (r.region).isSome)) ∧
     sales_by_state t = sales_by_state (t.filter (fun r => (r.state).isSome)) ∧
     sales_by_segment t = sales_by_segment (t.filter (fun r => (r.segment).isSome)) ∧
     sales_by_subcategory t
       = sales_by_subcategory (t.filter (fun r => (r.subCategory).isSome)) ∧
     (∀ n, top_products t n
       = top_products (t.filter (fun r => (r.productName).isSome)) n) ∧
     (∀ n, loss_making_products t n
       = loss_making_products (t.filter (fun r => (r.productName).isSome)) n) ∧
     (∀ n, top_customers t n
       = top_customers (t.filter (fun r => (r.customerName).isSome)) n) ∧
     customer_pareto t = customer_pareto (t.filter (fun r => (r.customerName).isSome)) ∧
     shipping_analysis t = shipping_analysis (t.filter (fun r => (r.shipMode).isSome))) ∧
    ((∀ rec ∈ sales_by_category t, some rec.category ∈ t.map Row.category) ∧
     (∀ rec ∈ kpis_by_category t, some rec.category ∈ t.map Row.category) ∧
     (∀ rec ∈ sales_by_region t, some rec.category ∈ t.map Row.region) ∧
     (∀ rec ∈ sales_by_state t, some rec.state ∈ t.map Row.state) ∧
     (∀ rec ∈ sales_by_segment t, some rec.segment ∈ t.map Row.segment) ∧
     (∀ rec ∈ sales_by_subcategory t, some rec.subCategory ∈ t.map Row.subCategory) ∧
     (∀ n, ∀ rec ∈ top_products t n, some rec.productName ∈ t.map Row.productName) ∧
     (∀ n, ∀ rec ∈ loss_making_products t n,
       some rec.productName ∈ t.map Row.productName) ∧
     (∀ n, ∀ rec ∈ top_customers t n, some rec.customerName ∈ t.map Row.customerName) ∧
     (∀ rec ∈ customer_pareto t, some rec.customerName ∈ t.map Row.customerName) ∧
     (∀ rec ∈ shipping_analysis t, some rec.shipMode ∈ t.map Row.shipMode)) := by
  constructor
  · refine ⟨?_, ?_, ?_, ?_, ?_, ?_, ?_, ?_, ?_, ?_, ?_⟩
    · unfold sales_by_category
      rw [groupKeys_filter_isSome]
      apply List.map_congr_left
      intro k _
      rw [groupOf_filter_isSome]
    · unfold kpis_by_category
      rw [groupKeys_filter_isSome]
      apply List.map_congr_left
      intro k _
      rw [groupOf_filter_isSome]
    · unfold sales_by_region
      rw [groupKeys_filter_isSome]
      apply List.map_congr_left
      intro k _
      rw [groupOf_filter_isSome]
    · unfold sales_by_state
      rw [stateEntries_filter_isSome]
    · unfold sales_by_segment
      rw [groupKeys_filter_isSome]
      apply List.map_congr_left
      intro k _
      rw [groupOf_filter_isSome]
    · unfold sales_by_subcategory
      rw [groupKeys_filter_isSome]
      apply List.map_congr_left
      intro k _
      rw [groupOf_filter_isSome]
    · intro n
      unfold top_products
      rw [prodEntries_filter_isSome]
    · intro n
      unfold loss_making_products
      rw [prodEntries_filter_isSome]
    · intro n
      unfold top_customers
      rw [custEntries_filter_isSome]
    · unfold customer_pareto
      rw [paretoBase_filter_isSome]
    · unfold shipping_analysis
      rw [groupKeys_filter_isSome]
      apply List.map_congr_left
      intro k _
      rw [groupOf_filter_isSome]
  · refine ⟨?_, ?_, ?_, sales_by_state_key_mem t, ?_, ?_, top_products_key_mem t,
      loss_making_key_mem t, top_customers_key_mem t, customer_pareto_key_mem t, ?_⟩
    · intro rec hrec
      have hmem : rec.category ∈ (sales_by_category t).map CatRec.category :=
        List.mem_map_of_mem _ hrec
      rw [sales_by_category_keys] at hmem
      exact mem_groupKeys.mp hmem
    · intro rec hrec
      have hmem : rec.category ∈ (kpis_by_category t).map CatKpiRec.category :=
        List.mem_map_of_mem _ hrec
      rw [kpis_by_category_keys] at hmem
      exact mem_groupKeys.mp hmem
    · intro rec hrec
      have hmem : rec.category ∈ (sales_by_region t).map CatRec.category :=
        List.mem_map_of_mem _ hrec
      rw [sales_by_region_keys] at hmem
      exact mem_groupKeys.mp hmem
    · intro rec hrec
      have hmem : rec.segment ∈ (sales_by_segment t).map SegRec.segment :=
        List.mem_map_of_mem _ hrec
      rw [sales_by_segment_keys] at hmem
      exact mem_groupKeys.mp hmem
    · intro rec hrec
      have hmem : rec.subCategory ∈ (sales_by_subcategory t).map SubRec.subCategory :=
        List.mem_map_of_mem _ hrec
      rw [sales_by_subcategory_keys] at hmem
      exact mem_groupKeys.mp hmem
    · intro rec hrec
      have hmem : rec.shipMode ∈ (shipping_analysis t).map ShipRec.shipMode :=
        List.mem_map_of_mem _ hrec
      rw [shipping_analysis_keys] at hmem
      exact mem_groupKeys.mp hmem

/-- The witness table for C10: one row with every grouping field missing
next to one fully keyed row. -/
def tblC10 : List Row :=
  [ { category := none, shipMode := none, sales := 5 },
    { category := some "A", region := some "R", state := some "T",
      segment := some "G", subCategory := some "U", productName := some "P",
      customerName := some "N", shipMode := some "S", sales := 1 } ]

/-- Witness for C10: the key of the single `sales-by-category` record of the
witness table is an observed category, and the single `top-customers` record
at limit 10 carries an observed customer name. -/
theorem C10_missing_keys_witness :
    some "A" ∈ tblC10.map Row.category ∧
    some "N" ∈ tblC10.map Row.customerName :=
  ⟨(C10_missing_keys tblC10).2.1 ⟨"A", 1, 0⟩ (by with_unfolding_all decide),
   (C10_missing_keys tblC10).2.2.2.2.2.2.2.2.2.1 10 ⟨"N", 1, 1⟩
     (by with_unfolding_all decide)⟩

end Store
